import Mathlib

/-!
Verification of the line-framed JSON transport and requirement-gated tools of
this repository (`src/examples/demo_requirements.ts`,
`src/examples/server/toolWithOAuthServer.ts`,
`src/examples/server/toolWithRequirementsServer.ts`).

Strings handled by the framing layer are embedded as `List Char`; the JSON
serializer/parser pair (`JSON.stringify` / `JSON.parse`), an external library
from the repository's point of view, is abstracted as a codec pair subject to
the round-trip facts the library guarantees.
-/

set_option linter.unusedVariables false

/-- `line.trim()` is falsy exactly when every character of the line is
whitespace (demo_requirements.ts line 236). -/
def isBlank (l : List Char) : Bool := l.all (fun c => c.isWhitespace)

/-- What one buffered line contributes, as in the body of the loop of
`handleData` (line 235-239) followed by `processLine` (lines 242-265):
blank lines are skipped before `processLine` is called, and a line whose
`JSON.parse` fails yields nothing (the SyntaxError is swallowed, lines
266-271).  `parse` stands for `JSON.parse` plus the validators. -/
def emit {μ : Type} (parse : List Char → Option μ) (line : List Char) : Option μ :=
  if isBlank line then none else parse line

/-- `processLine`'s catch block (demo_requirements.ts lines 266-271) logs
`Error processing response: …` only when the thrown error is NOT a
SyntaxError.  A `JSON.parse` failure throws a SyntaxError, and no other
statement of `processLine` throws in this model, so no line ever produces a
log entry: a malformed line is silently ignored, not reported. -/
def processLineLog {μ : Type} (parse : List Char → Option μ) (line : List Char) :
    Option (List Char) :=
  match parse line with
  | none => none
  | some _ => none

/-- `this.buffer.split('\n')` followed by `lines.pop()`
(demo_requirements.ts lines 232-233): the complete (newline-terminated)
lines of the character stream, and the trailing text after the last
newline, which `handleData` keeps as the new buffer. -/
def splitFrames : List Char → List (List Char) × List Char
  | [] => ([], [])
  | c :: cs =>
    let r := splitFrames cs
    if c = '\n' then ([] :: r.1, r.2)
    else
      match r.1 with
      | [] => ([], c :: r.2)
      | l :: ls => ((c :: l) :: ls, r.2)

/-- `ServerHandler.handleData` (demo_requirements.ts lines 230-240):
append the chunk to the retained buffer, split on newlines, keep the final
(possibly partial) piece as the new buffer, and process every complete
non-blank line in order.  The state is (buffer, messages emitted so far). -/
def handleData {μ : Type} (parse : List Char → Option μ)
    (st : List Char × List μ) (data : List Char) : List Char × List μ :=
  let r := splitFrames (st.1 ++ data)
  (r.2, st.2 ++ r.1.filterMap (emit parse))

/-- `ServerHandler.send` (demo_requirements.ts lines 274-279): one outgoing
message is written as its serialized text followed by a newline. -/
def sendFrame {μ : Type} (enc : μ → List Char) (m : μ) : List Char :=
  enc m ++ ['\n']

/-! ### Lemmas about the frame splitter -/

theorem splitFrames_buffer_no_newline (s : List Char) : '\n' ∉ (splitFrames s).2 := by
  induction s with
  | nil => simp [splitFrames]
  | cons c cs ih =>
    by_cases hc : c = '\n'
    · simp [splitFrames, hc, ih]
    · simp only [splitFrames, if_neg hc]
      cases h : (splitFrames cs).1 with
      | nil =>
        simp only [h, List.mem_cons, not_or]
        exact ⟨fun he => hc he.symm, ih⟩
      | cons l ls => simpa [h] using ih

theorem splitFrames_of_no_newline (s : List Char) (h : '\n' ∉ s) :
    splitFrames s = ([], s) := by
  induction s with
  | nil => simp [splitFrames]
  | cons c cs ih =>
    have hc : c ≠ '\n' := fun he => h (he ▸ List.mem_cons_self c cs)
    have hcs : '\n' ∉ cs := fun hm => h (List.mem_cons_of_mem c hm)
    simp [splitFrames, hc, ih hcs]

/-- The complete lines of `ys` once the pending text `p` is prepended:
`p` glues onto the first complete line of `ys`, if any. -/
def glueLines (p : List Char) : List (List Char) → List (List Char)
  | [] => []
  | l :: ls => (p ++ l) :: ls

/-- The pending text of `p ++ ys` given the split of `ys`. -/
def glueRest (p : List Char) (ls : List (List Char)) (q : List Char) : List Char :=
  match ls with
  | [] => p ++ q
  | _ :: _ => q

theorem splitFrames_append (xs ys : List Char) :
    splitFrames (xs ++ ys) =
      ((splitFrames xs).1 ++ glueLines (splitFrames xs).2 (splitFrames ys).1,
       glueRest (splitFrames xs).2 (splitFrames ys).1 (splitFrames ys).2) := by
  induction xs with
  | nil =>
    rw [Prod.ext_iff]
    cases h : (splitFrames ys).1 with
    | nil =>
      constructor
      · simp [splitFrames, glueLines, h]
      · simp [splitFrames, glueRest, h]
    | cons l ls =>
      constructor
      · simp [splitFrames, glueLines, h]
      · simp [splitFrames, glueRest, h]
  | cons c cs ih =>
    by_cases hc : c = '\n'
    · simp [splitFrames, hc, ih]
    · rw [List.cons_append]
      rw [show splitFrames (c :: (cs ++ ys)) =
        (match (splitFrames (cs ++ ys)).1 with
         | [] => ([], c :: (splitFrames (cs ++ ys)).2)
         | l :: ls => ((c :: l) :: ls, (splitFrames (cs ++ ys)).2)) from by
          simp [splitFrames, hc]]
      rw [ih]
      cases h1 : (splitFrames cs).1 with
      | nil =>
        cases h2 : (splitFrames ys).1 with
        | nil => simp [splitFrames, glueLines, glueRest, hc, h1, h2]
        | cons l2 t2 => simp [splitFrames, glueLines, glueRest, hc, h1, h2]
      | cons l1 t1 => simp [splitFrames, glueLines, glueRest, hc, h1]

theorem handleData_append {μ : Type} (parse : List Char → Option μ)
    (st : List Char × List μ) (c1 c2 : List Char) :
    handleData parse (handleData parse st c1) c2 = handleData parse st (c1 ++ c2) := by
  have hnl := splitFrames_buffer_no_newline (st.1 ++ c1)
  have hp := splitFrames_of_no_newline _ hnl
  simp only [handleData]
  rw [show st.1 ++ (c1 ++ c2) = (st.1 ++ c1) ++ c2 by simp,
    splitFrames_append (st.1 ++ c1) c2, splitFrames_append (splitFrames (st.1 ++ c1)).2 c2, hp]
  simp [glueLines, glueRest, List.filterMap_append]

theorem handleData_nil {μ : Type} (parse : List Char → Option μ)
    (st : List Char × List μ) (h : '\n' ∉ st.1) :
    handleData parse st [] = st := by
  simp [handleData, splitFrames_of_no_newline st.1 h]

theorem foldl_handleData {μ : Type} (parse : List Char → Option μ)
    (chunks : List (List Char)) (st : List Char × List μ) (h : '\n' ∉ st.1) :
    chunks.foldl (handleData parse) st = handleData parse st chunks.flatten := by
  induction chunks generalizing st with
  | nil => simpa using (handleData_nil parse st h).symm
  | cons c cs ih =>
    have hb : '\n' ∉ (handleData parse st c).1 := by
      simpa [handleData] using splitFrames_buffer_no_newline (st.1 ++ c)
    calc ((c :: cs).foldl (handleData parse) st)
        = cs.foldl (handleData parse) (handleData parse st c) := rfl
      _ = handleData parse (handleData parse st c) cs.flatten := ih _ hb
      _ = handleData parse st (c ++ cs.flatten) := handleData_append parse st c cs.flatten
      _ = handleData parse st (c :: cs).flatten := by simp

theorem splitFrames_line (l rest : List Char) (hl : '\n' ∉ l) :
    splitFrames (l ++ '\n' :: rest) =
      (l :: (splitFrames rest).1, (splitFrames rest).2) := by
  induction l with
  | nil => simp [splitFrames]
  | cons c cs ih =>
    have hc : c ≠ '\n' := fun he => hl (he ▸ List.mem_cons_self c cs)
    have hcs : '\n' ∉ cs := fun hm => hl (List.mem_cons_of_mem c hm)
    simp [splitFrames, hc, ih hcs]

theorem splitFrames_stream (lines : List (List Char))
    (h : ∀ l ∈ lines, '\n' ∉ l) :
    splitFrames ((lines.map (fun l => l ++ ['\n'])).flatten) = (lines, []) := by
  induction lines with
  | nil => simp [splitFrames]
  | cons l ls ih =>
    have hl : '\n' ∉ l := h l (List.mem_cons_self l ls)
    have hls : ∀ x ∈ ls, '\n' ∉ x := fun x hx => h x (List.mem_cons_of_mem l hx)
    simp only [List.map_cons, List.flatten_cons, List.append_assoc, List.singleton_append]
    rw [splitFrames_line l _ hl, ih hls]

theorem filterMap_id_of {α : Type} (f : α → Option α) (l : List α)
    (h : ∀ a ∈ l, f a = some a) : l.filterMap f = l := by
  induction l with
  | nil => simp
  | cons a t ih =>
    rw [List.filterMap_cons, h a (List.mem_cons_self a t),
      ih (fun x hx => h x (List.mem_cons_of_mem a hx))]

/-- C1.  FrameCodec round-trip: writing each message as `send` does
(`JSON.stringify` plus a newline, `sendFrame`) and feeding the concatenated
bytes to `handleData` in any partition into chunks — chunks may end
mid-frame, the trailing partial frame being retained in the buffer across
calls — emits exactly the original messages, in order, and leaves an empty
buffer.  `parse`/`enc` abstract the JSON library: parsing inverts
serialization, serialized texts contain no raw newline and are not blank. -/
theorem frameCodec_roundtrip {μ : Type} (parse : List Char → Option μ) (enc : μ → List Char)
    (hparse : ∀ m, parse (enc m) = some m)
    (hnl : ∀ m, '\n' ∉ enc m)
    (hnb : ∀ m, isBlank (enc m) = false)
    (msgs : List μ) (chunks : List (List Char))
    (hchunks : chunks.flatten = (msgs.map (sendFrame enc)).flatten) :
    chunks.foldl (handleData parse) ([], []) = ([], msgs) := by
  have hmaps : msgs.map (sendFrame enc) = (msgs.map enc).map (fun l => l ++ ['\n']) := by
    rw [List.map_map]; rfl
  rw [foldl_handleData parse chunks ([], []) (by simp), hchunks, hmaps]
  have hstream : splitFrames ((msgs.map enc).map (fun l => l ++ ['\n'])).flatten
      = (msgs.map enc, []) :=
    splitFrames_stream (msgs.map enc) (by
      intro l hl
      rcases List.mem_map.mp hl with ⟨m, _, rfl⟩
      exact hnl m)
  simp only [handleData, List.nil_append, hstream]
  rw [List.filterMap_map]
  have hall : msgs.filterMap (emit parse ∘ enc) = msgs := by
    refine filterMap_id_of _ msgs (fun m _ => ?_)
    simp [emit, Function.comp, hnb m, hparse m]
  rw [hall]

/-- A two-symbol test codec standing in for the JSON library in concrete runs. -/
def bEnc : Bool → List Char := fun b => if b then ['t'] else ['f']

/-- The matching test parser: inverts `bEnc`, rejects anything else. -/
def bParse : List Char → Option Bool := fun l =>
  if l = ['t'] then some true else if l = ['f'] then some false else none

/-- Witness for C1: three messages, fed in chunks that cut mid-frame. -/
theorem frameCodec_roundtrip_witness :
    ([['t'], ['\n', 'f'], ['\n'], ['t', '\n']] : List (List Char)).foldl
        (handleData bParse) ([], []) = ([], [true, false, true]) :=
  frameCodec_roundtrip bParse bEnc (by decide) (by decide) (by decide)
    [true, false, true] [['t'], ['\n', 'f'], ['\n'], ['t', '\n']] (by decide)

/-! ### Malformed lines (processLine error confinement) -/

/-- C5 (amended).  A line that fails to parse is confined: it is silently
ignored — the catch block swallows the SyntaxError, so no parse error is
reported — the codec resynchronizes at the next newline, every well-formed
frame before and after it is still emitted in order (blank lines silently
skipped), and the session survives: `handleData` is total and ends with an
empty buffer. -/
theorem malformed_line_confined {μ : Type} (parse : List Char → Option μ)
    (lines : List (List Char)) (chunks : List (List Char))
    (hnl : ∀ l ∈ lines, '\n' ∉ l)
    (hchunks : chunks.flatten = (lines.map (fun l => l ++ ['\n'])).flatten) :
    chunks.foldl (handleData parse) ([], []) = ([], lines.filterMap (emit parse)) ∧
    ∀ l, processLineLog parse l = none := by
  constructor
  · rw [foldl_handleData parse chunks ([], []) (by simp), hchunks]
    simp [handleData, splitFrames_stream lines hnl]
  · intro l
    cases h : parse l <;> simp [processLineLog, h]

/-- Witness for C5 (amended): a malformed line `x` between two valid frames. -/
theorem malformed_line_confined_witness :
    (([['t', '\n', 'x'], ['\n', 'f', '\n']] : List (List Char)).foldl
        (handleData bParse) ([], []) =
      ([], ([['t'], ['x'], ['f']] : List (List Char)).filterMap (emit bParse))) ∧
    (∀ l, processLineLog bParse l = none) :=
  malformed_line_confined bParse [['t'], ['x'], ['f']]
    [['t', '\n', 'x'], ['\n', 'f', '\n']] (by decide) (by decide)

/-- Counterexample for C5 as stated: the claim says a malformed line "is
reported as a parse error for that line"; in the code the SyntaxError is
swallowed (`// Ignore JSON parse errors`, demo_requirements.ts line 267), so
the malformed line `x` produces no report at all — while the frames around it
are still delivered. -/
theorem malformed_line_not_reported_cex :
    processLineLog bParse ['x'] = none ∧ bParse ['x'] = none ∧
    handleData bParse ([], []) ['t', '\n', 'x', '\n', 'f', '\n'] = ([], [true, false]) := by
  decide

/-! ### The handlers map and frame routing -/

/-- A key of the `handlers` map (`RequestId | string`,
demo_requirements.ts line 204); ids on the wire are integers or strings
(spec §6). -/
inductive RKey where
  | num : Int → RKey
  | str : String → RKey
deriving DecidableEq

/-- JS truthiness of such a key: the number 0 and the empty string are falsy. -/
def rkTruthy : RKey → Bool
  | RKey.num n => n != 0
  | RKey.str s => s != ""

/-- JS `Map.set`: replaces the stored value when the key is present, appends
otherwise. -/
def hset : List (RKey × Nat) → RKey → Nat → List (RKey × Nat)
  | [], k, v => [(k, v)]
  | (k', v') :: t, k, v => if k' = k then (k, v) :: t else (k', v') :: hset t k v

/-- JS `Map.get`: the value stored at the key, if any. -/
def hget : List (RKey × Nat) → RKey → Option Nat
  | [], _ => none
  | (k', v') :: t, k => if k' = k then some v' else hget t k

/-- The mutable state of a `ServerHandler`: its `handlers` map
(demo_requirements.ts line 204).  Callback functions are opaque, identified
by numeric tags. -/
structure HState where
  handlers : List (RKey × Nat)
deriving DecidableEq

/-- `ServerHandler.onResponse` (demo_requirements.ts lines 281-284):
`this.handlers.set(id, handler)`, unconditionally — there is no occupancy
check and no `DuplicateKey` failure anywhere in the class. -/
def onResponse (st : HState) (k : RKey) (h : Nat) : HState :=
  ⟨hset st.handlers k h⟩

/-- The `responseObj.method || ''` tail of the routing key
(demo_requirements.ts line 261). -/
def methodKey : Option String → RKey
  | some m => if m != "" then RKey.str m else RKey.str ""
  | none => RKey.str ""

/-- The key `processLine` looks up: `responseObj.id || responseObj.method || ''`
(demo_requirements.ts line 261).  JS `||` falls through on falsy values, so a
present id of `0` or `""` is skipped in favour of the method (or `''`). -/
def routeKey (fid : Option RKey) (fm : Option String) : RKey :=
  match fid with
  | some k => if rkTruthy k then k else methodKey fm
  | none => methodKey fm

/-- The handler, if any, a parsed frame with the given `id`/`method` fields
is delivered to (demo_requirements.ts lines 259-264); `none` means the frame
is dropped by the `if (handler)` guard and the session continues. -/
def dispatch (st : HState) (fid : Option RKey) (fm : Option String) : Option Nat :=
  hget st.handlers (routeKey fid fm)

/-- Effect of `waitForResponse` on the handlers map (demo_requirements.ts
lines 286-297): it registers the resolving callback under the id via
`onResponse`.  Nothing in the class ever deletes a map entry. -/
def waitForResponseRegister (st : HState) (k : RKey) (h : Nat) : HState :=
  onResponse st k h

/-- Effect of the timeout callback (demo_requirements.ts lines 288-290) on
the handlers map: it only rejects the promise with
`Timeout waiting for response …`; the map is untouched. -/
def timeoutMapEffect (st : HState) : HState := st

theorem hget_hset_self (m : List (RKey × Nat)) (k : RKey) (v : Nat) :
    hget (hset m k v) k = some v := by
  induction m with
  | nil => simp [hset, hget]
  | cons p t ih =>
    obtain ⟨k', v'⟩ := p
    by_cases hk : k' = k
    · simp [hset, hget, hk]
    · simp [hset, hget, hk, ih]

/-- Counterexample for C2 as stated: the claim says a second registration for
a live key fails with `DuplicateKey`; in the code `onResponse` silently
replaces the first waiter — registration is total, no error exists, and the
first handler is gone from the map. -/
theorem onResponse_replaces_cex :
    (onResponse (onResponse ⟨[]⟩ (RKey.num 7) 1) (RKey.num 7) 2).handlers
        = [(RKey.num 7, 2)] ∧
    hget (onResponse (onResponse ⟨[]⟩ (RKey.num 7) 1) (RKey.num 7) 2).handlers
        (RKey.num 7) = some 2 := by
  decide

/-- C2 (amended).  Registering a second waiter for a key that already has an
uncompleted waiter does not fail: `onResponse` silently replaces the first
waiter with the second (`Map.set` semantics); no `DuplicateKey` error exists. -/
theorem onResponse_silently_replaces (st : HState) (k : RKey) (h1 h2 : Nat) :
    hget (onResponse (onResponse st k h1) k h2).handlers k = some h2 := by
  simpa [onResponse] using hget_hset_self (hset st.handlers k h1) k h2

/-! ### The waitForResponse promise: settlement, timeout, duplicates -/

/-- The outcome awaited by the caller of `waitForResponse`: the resolved
response, or the `Timeout waiting for response …` rejection. -/
inductive Outcome (μ : Type) where
  | ok : μ → Outcome μ
  | timedOut : Outcome μ
deriving DecidableEq

/-- Events one pending wait can experience: a frame for its key is dispatched
to the stored callback, or its timer fires. -/
inductive Ev (μ : Type) where
  | resp : μ → Ev μ
  | fire : Ev μ

/-- State of one `waitForResponse` promise: the single settlement slot,
whether `clearTimeout` has run, whether the timer already fired, and how many
`resolve` calls actually settled the promise (delivery count). -/
structure PromState (μ : Type) where
  settled : Option (Outcome μ)
  timerCleared : Bool
  timerFired : Bool
  okCount : Nat
deriving DecidableEq

def initProm {μ : Type} : PromState μ := ⟨none, false, false, 0⟩

/-- One event step, from `waitForResponse` (demo_requirements.ts lines
286-297) together with the JS runtime semantics the code relies on: a promise
settles at most once, and a timer that was `clearTimeout`-ed or already fired
does not fire.  On `resp v` the stored callback runs `clearTimeout(timer)`
then `resolve(v)`; on `fire` the timer callback runs `reject(Timeout…)`. -/
def pstep {μ : Type} (st : PromState μ) : Ev μ → PromState μ
  | Ev.resp v =>
    match st.settled with
    | none => ⟨some (Outcome.ok v), true, st.timerFired, st.okCount + 1⟩
    | some o => ⟨some o, true, st.timerFired, st.okCount⟩
  | Ev.fire =>
    if st.timerCleared || st.timerFired then st
    else
      match st.settled with
      | none => ⟨some Outcome.timedOut, st.timerCleared, true, st.okCount⟩
      | some o => ⟨some o, st.timerCleared, true, st.okCount⟩

/-- A full event history of one pending wait, run from the fresh state. -/
def prun {μ : Type} (evs : List (Ev μ)) : PromState μ := evs.foldl pstep initProm

theorem pstep_settled {μ : Type} (st : PromState μ) (o : Outcome μ) (e : Ev μ)
    (h : st.settled = some o) :
    (pstep st e).settled = some o ∧ (pstep st e).okCount = st.okCount := by
  cases e with
  | resp v => simp [pstep, h]
  | fire =>
    by_cases hg : (st.timerCleared || st.timerFired) = true
    · simp [pstep, hg, h]
    · simp [pstep, hg, h]

theorem foldl_pstep_settled {μ : Type} (evs : List (Ev μ)) (st : PromState μ)
    (o : Outcome μ) (h : st.settled = some o) :
    (evs.foldl pstep st).settled = some o ∧ (evs.foldl pstep st).okCount = st.okCount := by
  induction evs generalizing st with
  | nil => exact ⟨h, rfl⟩
  | cons e t ih =>
    obtain ⟨h1, h2⟩ := pstep_settled st o e h
    obtain ⟨h3, h4⟩ := ih (pstep st e) h1
    exact ⟨h3, by rw [List.foldl_cons, h4, h2]⟩

/-- C8.  For one pending wait, completion and timeout are mutually exclusive
terminal outcomes: whichever event reaches the promise first fixes the
settlement for the whole history, and a response that completes the waiter
before its timeout is delivered exactly once (`okCount = 1`) no matter how
many duplicate responses or timer events follow; a timeout first means no
delivery ever (`okCount = 0`). -/
theorem completion_timeout_exclusive {μ : Type} (e : Ev μ) (rest : List (Ev μ)) :
    (prun (e :: rest)).settled =
        some (match e with | Ev.resp v => Outcome.ok v | Ev.fire => Outcome.timedOut) ∧
    (prun (e :: rest)).okCount = (match e with | Ev.resp _ => 1 | Ev.fire => 0) := by
  cases e with
  | resp v =>
    have h1 : pstep (initProm (μ := μ)) (Ev.resp v)
        = ⟨some (Outcome.ok v), true, false, 1⟩ := by
      simp [pstep, initProm]
    obtain ⟨ha, hb⟩ := foldl_pstep_settled rest (pstep initProm (Ev.resp v))
      (Outcome.ok v) (by rw [h1])
    refine ⟨ha, ?_⟩
    show (rest.foldl pstep (pstep initProm (Ev.resp v))).okCount = 1
    rw [hb, h1]
  | fire =>
    have h1 : pstep (initProm (μ := μ)) Ev.fire
        = ⟨some Outcome.timedOut, false, true, 0⟩ := by
      simp [pstep, initProm]
    obtain ⟨ha, hb⟩ := foldl_pstep_settled rest (pstep initProm Ev.fire)
      Outcome.timedOut (by rw [h1])
    refine ⟨ha, ?_⟩
    show (rest.foldl pstep (pstep initProm Ev.fire)).okCount = 0
    rw [hb, h1]

/-- Counterexample for C3 as stated: the claim says that on timeout the waiter
is unregistered and a later response invokes no waiter.  In the code the timer
callback never touches the map, so after the timeout the waiter for id 3 is
still registered and a later response frame with id 3 is dispatched to it. -/
theorem timeout_keeps_waiter_cex :
    hget (timeoutMapEffect (waitForResponseRegister ⟨[]⟩ (RKey.num 3) 9)).handlers
        (RKey.num 3) = some 9 ∧
    dispatch (timeoutMapEffect (waitForResponseRegister ⟨[]⟩ (RKey.num 3) 9))
        (some (RKey.num 3)) none = some 9 := by
  decide

/-- C3 (amended).  When the deadline elapses first the await fails with
`Timeout waiting for response …` and stays failed, but the waiter is NOT
unregistered: the entry survives the timeout, a later response for that key is
still dispatched to the stored callback, and only the callback's `resolve` on
the already-rejected promise is a no-op (the settled outcome remains the
timeout and the delivery count stays 0). -/
theorem timeout_keeps_waiter (st : HState) (k : RKey) (h : Nat) (v : Nat)
    (hk : rkTruthy k = true) :
    hget (timeoutMapEffect (waitForResponseRegister st k h)).handlers k = some h ∧
    dispatch (timeoutMapEffect (waitForResponseRegister st k h)) (some k) none = some h ∧
    (prun [Ev.fire, Ev.resp v]).settled = some (Outcome.timedOut (μ := Nat)) ∧
    (prun [Ev.fire, Ev.resp v]).okCount = 0 := by
  refine ⟨?_, ?_, rfl, rfl⟩
  · exact hget_hset_self st.handlers k h
  · simpa [dispatch, routeKey, hk, timeoutMapEffect, waitForResponseRegister, onResponse]
      using hget_hset_self st.handlers k h

/-- Witness for C3 (amended), at key id 4, handler tag 8, late response 0. -/
theorem timeout_keeps_waiter_witness :
    hget (timeoutMapEffect (waitForResponseRegister ⟨[]⟩ (RKey.num 4) 8)).handlers
        (RKey.num 4) = some 8 :=
  (timeout_keeps_waiter ⟨[]⟩ (RKey.num 4) 8 0 (by decide)).1

/-- Counterexample for C6 as stated: the claim says a response with id 0
routes to the waiter registered under that id, and a request whose method
matches a registered key routes to that waiter.  In the code the key is
`id || method || ''`: the falsy id 0 is skipped (the frame routes to the
`''` key, so the waiter under id 0 is never found), and a request carrying the
truthy id 2 routes by that id, not by its registered method `ping`. -/
theorem dispatch_falsy_id_cex :
    dispatch ⟨[(RKey.num 0, 5)]⟩ (some (RKey.num 0)) none = none ∧
    dispatch ⟨[(RKey.str "ping", 4)]⟩ (some (RKey.num 2)) (some "ping") = none := by
  decide

/-- C6 (amended).  A parsed frame routes by the single key
`id || method || ''`: by its id when the id is present and truthy (nonzero
number or nonempty string) — even when a method is also present — otherwise by
its method when that is present and nonempty, otherwise by the empty-string
key; the waiter registered under that key, if any, receives the frame, and a
frame with no waiter under its key is dropped (`none`) without failing the
session. -/
theorem dispatch_routing (st : HState) (k : RKey) (m : String)
    (hk : rkTruthy k = true) (hm : m ≠ "") :
    dispatch st (some k) none = hget st.handlers k ∧
    dispatch st (some k) (some m) = hget st.handlers k ∧
    (∀ kf, rkTruthy kf = false → dispatch st (some kf) (some m) = hget st.handlers (RKey.str m)) ∧
    dispatch st none (some m) = hget st.handlers (RKey.str m) ∧
    dispatch st none none = hget st.handlers (RKey.str "") ∧
    (hget st.handlers k = none → dispatch st (some k) none = none) := by
  have hm' : (m != "") = true := by simpa using hm
  refine ⟨?_, ?_, ?_, ?_, ?_, ?_⟩
  · simp [dispatch, routeKey, hk]
  · simp [dispatch, routeKey, hk]
  · intro kf hkf
    simp [dispatch, routeKey, methodKey, hkf, hm']
  · simp [dispatch, routeKey, methodKey, hm']
  · simp [dispatch, routeKey, methodKey]
  · intro hnone
    simp [dispatch, routeKey, hk, hnone]

/-- Witness for C6 (amended): a truthy id 1 routes to the id-keyed waiter. -/
theorem dispatch_routing_witness :
    dispatch ⟨[(RKey.num 1, 9)]⟩ (some (RKey.num 1)) none
        = hget [(RKey.num 1, 9)] (RKey.num 1) :=
  (dispatch_routing ⟨[(RKey.num 1, 9)]⟩ (RKey.num 1) "ping" (by decide) (by decide)).1

/-! ### The requirement tree (types.ts `RequirementSchema`) and its display -/

/-- The recursive requirement tree carried in a tool's `requires` field:
leaf predicates (`capability`, `permission` with subType `scope`/`claim`/
`resource`/`input`) and the combinators `anyOf`/`allOf`/`not`
(the `not` variant is named `notOf` here). -/
inductive Requirement where
  | capability : String → Requirement
  | permScope : String → Requirement
  | permClaim : String → String → Requirement
  | permResource : String → String → Requirement
  | permInput : Option String → String → Requirement
  | anyOf : List Requirement → Requirement
  | allOf : List Requirement → Requirement
  | notOf : Requirement → Requirement

/-- `indent.slice(0, -2) + '- '` (demo_requirements.ts line 102). -/
def reqLine (ind : String) : String := ind.dropRight 2 ++ "- "

mutual

/-- `display.requirement` (demo_requirements.ts lines 99-130): plain direct
recursion over the tree, one list entry per `console.log` call.  There is no
depth counter, no ceiling and no "too deep" failure path. -/
def displayRequirement : Requirement → String → List String
  | Requirement.capability n, ind => [reqLine ind ++ "Capability: " ++ n]
  | Requirement.permScope v, ind =>
      [reqLine ind ++ "Permission: scope", ind ++ "  value: " ++ v]
  | Requirement.permClaim n v, ind =>
      [reqLine ind ++ "Permission: claim",
       ind ++ "  name: " ++ n ++ "\n" ++ ind ++ "  value: " ++ v]
  | Requirement.permResource u v, ind =>
      [reqLine ind ++ "Permission: resource",
       ind ++ "  uri: " ++ u ++ "\n" ++ ind ++ "  value: " ++ v]
  | Requirement.permInput p v, ind =>
      (reqLine ind ++ "Permission: input") ::
        ((match p with
          | some pr => [ind ++ "  property: " ++ pr]
          | none => []) ++ [ind ++ "  value: " ++ v])
  | Requirement.anyOf cs, ind =>
      (reqLine ind ++ "Any of:") :: displayRequirementList cs (ind ++ "    ")
  | Requirement.allOf cs, ind =>
      (reqLine ind ++ "All of:") :: displayRequirementList cs (ind ++ "    ")
  | Requirement.notOf c, ind =>
      (reqLine ind ++ "Not:") :: displayRequirement c (ind ++ "  ")

/-- The `forEach` over a combinator's children, in order. -/
def displayRequirementList : List Requirement → String → List String
  | [], _ => []
  | c :: cs, ind => displayRequirement c ind ++ displayRequirementList cs ind

end

/-- A chain of `not` requirements of the given depth over a capability leaf:
the concrete deep tree used to probe the (absent) depth ceiling. -/
def nestNot : Nat → Requirement
  | 0 => Requirement.capability "mcp:sampling"
  | n + 1 => Requirement.notOf (nestNot n)

/-- Counterexample for C9 as stated: the claim says a tree deeper than a
configurable ceiling fails closed with a too-deep error; the code has no
ceiling at all — a `not`-chain 50 deep is rendered in full (51 lines, one per
node), with no error outcome of any kind (the display function cannot fail). -/
theorem displayRequirement_no_ceiling_cex :
    (displayRequirement (nestNot 50) "     ").length = 51 := by
  rfl

/-- C9 (amended).  The recursion of `display.requirement` is plain structural
recursion: it terminates on every finite tree (every tree renders at least
one line), but it is neither iterative nor depth-bounded — there is no
configurable ceiling and no too-deep error, and a `not`-chain of ANY depth n
is rendered in full with n+1 lines. -/
theorem displayRequirement_total_unbounded :
    (∀ r ind, displayRequirement r ind ≠ []) ∧
    (∀ n ind, (displayRequirement (nestNot n) ind).length = n + 1) := by
  constructor
  · intro r ind
    cases r <;> simp [displayRequirement]
  · intro n ind
    induction n generalizing ind with
    | zero => simp [nestNot, displayRequirement]
    | succ k ih => simp [nestNot, displayRequirement, ih]

/-! ### The OAuth demo server's tools (toolWithOAuthServer.ts) -/

/-- The tool-call result shape used by the OAuth server's handlers: the text
contents and the `isError` flag (absent in the source means `false`). -/
structure CallToolResult where
  content : List String
  isError : Bool
deriving DecidableEq

/-- `hasScope` (toolWithOAuthServer.ts lines 20-22):
`currentScopes.includes(requiredScope)`.  The module-level mutable
`currentScopes` is passed explicitly. -/
def hasScope (currentScopes : List String) (requiredScope : String) : Bool :=
  currentScopes.contains requiredScope

theorem hasScope_iff (cs : List String) (s : String) : hasScope cs s = true ↔ s ∈ cs :=
  List.elem_iff

/-- The `deleteUser` handler (toolWithOAuthServer.ts lines 65-102): an
access-denied `isError` result without the `admin:users:delete` scope, a
success result with it; the handler never assigns `currentScopes`, so the
scope state is returned unchanged. -/
def deleteUser (currentScopes : List String) (userId : String) :
    List String × CallToolResult :=
  if !(hasScope currentScopes "admin:users:delete") then
    (currentScopes,
     ⟨["❌ Access denied: Missing required scope \x27admin:users:delete\x27"], true⟩)
  else
    (currentScopes, ⟨["✅ User " ++ userId ++ " has been deleted successfully"], false⟩)

/-- The `_updateClientScopes` handler (toolWithOAuthServer.ts lines 160-181):
`currentScopes = scopes` — wholesale replacement — then a success result. -/
def updateClientScopes (currentScopes : List String) (scopes : List String) :
    List String × CallToolResult :=
  (scopes, ⟨["OAuth scopes updated: " ++ String.intercalate ", " scopes], false⟩)

/-- The `requires` metadata of the `deleteUser` registration
(toolWithOAuthServer.ts lines 72-78). -/
def deleteUserRequires : List Requirement := [Requirement.permScope "admin:users:delete"]

/-- The `requires` metadata of the `_updateClientScopes` registration
(toolWithOAuthServer.ts lines 161-167): the field is absent, i.e. the empty
sequence — no requirement gates the tool. -/
def updateClientScopesRequires : List Requirement := []

/-- The `transferFunds` handler (toolWithOAuthServer.ts lines 105-157):
requires both `accounts:read` and `accounts:write`; on failure the error text
lists the missing ones, read first, write second. -/
def transferFunds (currentScopes : List String) (fromAccount toAccount : String)
    (amount : Int) : List String × CallToolResult :=
  if !(hasScope currentScopes "accounts:read") || !(hasScope currentScopes "accounts:write") then
    let missingScopes : List String :=
      (if !(hasScope currentScopes "accounts:read") then ["accounts:read"] else []) ++
      (if !(hasScope currentScopes "accounts:write") then ["accounts:write"] else [])
    (currentScopes,
     ⟨["❌ Access denied: Missing required scopes: " ++
       String.intercalate ", " missingScopes], true⟩)
  else
    (currentScopes,
     ⟨["✅ Transferred $" ++ toString amount ++ " from " ++ fromAccount ++
       " to " ++ toAccount], false⟩)

/-- The `requires` metadata of the `transferFunds` registration
(toolWithOAuthServer.ts lines 114-129). -/
def transferFundsRequires : List Requirement :=
  [Requirement.allOf [Requirement.permScope "accounts:read",
                      Requirement.permScope "accounts:write"]]

/-- C4.  Scope gate plus renegotiation: when the caller's scope set lacks
`admin:users:delete`, `deleteUser` answers an `isError` (access denied)
result and leaves the scope set unchanged; after `_updateClientScopes`
replaces the scopes with a set containing `admin:users:delete`, the same
`deleteUser` call answers a non-error success result. -/
theorem deleteUser_scope_renegotiation (s0 S : List String) (uid : String)
    (h0 : "admin:users:delete" ∉ s0) (hS : "admin:users:delete" ∈ S) :
    (deleteUser s0 uid).2.isError = true ∧
    (deleteUser s0 uid).1 = s0 ∧
    (updateClientScopes s0 S).1 = S ∧
    (deleteUser (updateClientScopes s0 S).1 uid).2.isError = false := by
  have hh0 : hasScope s0 "admin:users:delete" = false := by
    rw [← Bool.not_eq_true]
    exact fun hc => h0 ((hasScope_iff s0 _).mp hc)
  have hhS : hasScope S "admin:users:delete" = true := (hasScope_iff S _).mpr hS
  refine ⟨?_, ?_, rfl, ?_⟩ <;> simp [deleteUser, updateClientScopes, hh0, hhS]

/-- Witness for C4 at the demo's own values: scopes `user:read` before,
`user:read, admin:users:delete` after, user `user123`. -/
theorem deleteUser_scope_renegotiation_witness :
    (deleteUser ["user:read"] "user123").2.isError = true ∧
    (deleteUser ["user:read"] "user123").1 = ["user:read"] ∧
    (updateClientScopes ["user:read"] ["user:read", "admin:users:delete"]).1
        = ["user:read", "admin:users:delete"] ∧
    (deleteUser (updateClientScopes ["user:read"] ["user:read", "admin:users:delete"]).1
        "user123").2.isError = false :=
  deleteUser_scope_renegotiation ["user:read"] ["user:read", "admin:users:delete"]
    "user123" (by decide) (by decide)

theorem hasScope_eq_false_iff (cs : List String) (s : String) :
    hasScope cs s = false ↔ s ∉ cs := by
  rw [← hasScope_iff cs s]
  cases hasScope cs s <;> simp

/-- C7.  The `allOf [scope accounts:read, scope accounts:write]` gate of
`transferFunds`: the invocation succeeds (non-error) iff both scopes are in
the caller's scope set, and on failure the error message lists exactly the
missing scopes among the two — only `accounts:read`, only `accounts:write`,
or both (in that order) — not just the first unmet one. -/
theorem transferFunds_allOf_gate (cs : List String) (fa ta : String) (amt : Int) :
    ((transferFunds cs fa ta amt).2.isError = false ↔
        ("accounts:read" ∈ cs ∧ "accounts:write" ∈ cs)) ∧
    ("accounts:read" ∉ cs → "accounts:write" ∈ cs →
      (transferFunds cs fa ta amt).2.content
          = ["❌ Access denied: Missing required scopes: accounts:read"]) ∧
    ("accounts:read" ∈ cs → "accounts:write" ∉ cs →
      (transferFunds cs fa ta amt).2.content
          = ["❌ Access denied: Missing required scopes: accounts:write"]) ∧
    ("accounts:read" ∉ cs → "accounts:write" ∉ cs →
      (transferFunds cs fa ta amt).2.content
          = ["❌ Access denied: Missing required scopes: accounts:read, accounts:write"]) := by
  by_cases hr : "accounts:read" ∈ cs <;> by_cases hw : "accounts:write" ∈ cs
  · have h1 := (hasScope_iff cs "accounts:read").mpr hr
    have h2 := (hasScope_iff cs "accounts:write").mpr hw
    exact ⟨by simp [transferFunds, h1, h2, hr, hw],
      fun hn _ => absurd hr hn, fun _ hn => absurd hw hn, fun hn _ => absurd hr hn⟩
  · have h1 := (hasScope_iff cs "accounts:read").mpr hr
    have h2 := (hasScope_eq_false_iff cs "accounts:write").mpr hw
    refine ⟨by simp [transferFunds, h1, h2, hw], fun hn _ => absurd hr hn, ?_, fun hn _ => absurd hr hn⟩
    intro _ _
    simp [transferFunds, h1, h2]; decide
  · have h1 := (hasScope_eq_false_iff cs "accounts:read").mpr hr
    have h2 := (hasScope_iff cs "accounts:write").mpr hw
    refine ⟨by simp [transferFunds, h1, h2, hr], ?_, fun _ hn => absurd hw hn, fun _ hn => absurd hw hn⟩
    intro _ _
    simp [transferFunds, h1, h2]; decide
  · have h1 := (hasScope_eq_false_iff cs "accounts:read").mpr hr
    have h2 := (hasScope_eq_false_iff cs "accounts:write").mpr hw
    refine ⟨by simp [transferFunds, h1, h2, hr], fun _ hn => absurd hn hw, fun hn _ => absurd hn hr, ?_⟩
    intro _ _
    simp [transferFunds, h1, h2]; decide

/-- Witness for C7: with only `accounts:read` held, the call errors and the
message names exactly the one missing scope, `accounts:write`. -/
theorem transferFunds_allOf_gate_witness :
    (transferFunds ["accounts:read"] "acctA" "acctB" (5 : Int)).2.content
        = ["❌ Access denied: Missing required scopes: accounts:write"] :=
  (transferFunds_allOf_gate ["accounts:read"] "acctA" "acctB" 5).2.2.1
    (by decide) (by decide)

/-- C10.  `_updateClientScopes` is ungated — its registration declares no
`requires`, so no requirement restricts it regardless of the caller's current
scopes — and it always succeeds, wholesale-replacing the scope set with the
requested list S: afterwards `hasScope s` holds iff s ∈ S, and previously
held scopes not in S are revoked. -/
theorem updateClientScopes_ungated_replaces (cur S : List String) (s : String) :
    updateClientScopesRequires = [] ∧
    (updateClientScopes cur S).2.isError = false ∧
    (updateClientScopes cur S).1 = S ∧
    (hasScope (updateClientScopes cur S).1 s = true ↔ s ∈ S) ∧
    (s ∉ S → hasScope (updateClientScopes cur S).1 s = false) := by
  refine ⟨rfl, rfl, rfl, hasScope_iff S s, fun hn => (hasScope_eq_false_iff S s).mpr hn⟩
